import Mathlib

/-! Shallow embedding of the lars-core crate of local-app-runner.

Data model from crates/lars-core/src/models.rs. Rust strings are modelled
as Lean String where only equality matters, and as List Char where the code
processes individual characters; u32/u64 fields and chrono timestamps are
modelled as Nat; Uuid is an opaque String. serde_json serialization is
modelled at the JSON value level (inductive Json below): the text layer of
serde_json is external library code, while the field layout, the serde
attributes (default, skip_serializing_if, rename_all) and their effect on
round-tripping all belong to this repository and are modelled faithfully. -/

inductive RunnerType where
  | tmux
  | screen
  | direct
deriving DecidableEq, Repr

inductive ShutdownBehavior where
  | stopAll
  | leaveRunning
deriving DecidableEq, Repr

/-- Service from models.rs: id, name, command, optional cwd, env overrides,
enabled, autostart, runner_type, created_at, updated_at. The env HashMap is
modelled as an association list. -/
structure Service where
  id : String
  name : String
  command : String
  cwd : Option String
  env : List (String × String)
  enabled : Bool
  autostart : Bool
  runner_type : RunnerType
  created_at : Nat
  updated_at : Nat
deriving DecidableEq, Repr

/-- Service::touch sets updated_at to the current time, passed explicitly. -/
def Service.touch (s : Service) (now : Nat) : Service :=
  { s with updated_at := now }

def CURRENT_CONFIG_VERSION : Nat := 1

def DEFAULT_RESTART_TIMEOUT_SECS : Nat := 10

structure AppSettings where
  default_runner : RunnerType
  shutdown_behavior : ShutdownBehavior
  restart_timeout_secs : Nat
deriving DecidableEq, Repr

/-- Default for AppSettings from models.rs. -/
def AppSettings.dflt : AppSettings :=
  { default_runner := .tmux
    shutdown_behavior := .stopAll
    restart_timeout_secs := DEFAULT_RESTART_TIMEOUT_SECS }

structure AppConfig where
  config_version : Nat
  services : List Service
  settings : AppSettings
deriving DecidableEq, Repr

/-- Default for AppConfig from models.rs. -/
def AppConfig.dflt : AppConfig :=
  { config_version := CURRENT_CONFIG_VERSION
    services := []
    settings := AppSettings.dflt }

def AppConfig.find_service_by_name (c : AppConfig) (n : String) : Option Service :=
  c.services.find? (fun s => s.name = n)

/-- AppConfig::add_service pushes at the end of the Vec. -/
def AppConfig.add_service (c : AppConfig) (s : Service) : AppConfig :=
  { c with services := c.services ++ [s] }

def AppConfig.service_name_exists (c : AppConfig) (n : String) : Bool :=
  c.services.any (fun s => s.name = n)

/-- Vec::remove at the position of the first record with the given name,
returning the removed record, as in AppConfig::remove_service_by_name. -/
def removeFirst : List Service → String → Option (Service × List Service)
  | [], _ => none
  | s :: rest, n =>
    if s.name = n then some (s, rest)
    else (removeFirst rest n).map (fun p => (p.1, s :: p.2))

/-- iter_mut().find on name followed by the in-place mutation done by
ConfigManager::update_service: apply the mutator to the first record with
the given name, then touch its updated_at. -/
def mutateFirst : List Service → String → (Service → Service) → Nat → Option (List Service)
  | [], _, _, _ => none
  | s :: rest, n, f, now =>
    if s.name = n then some ((f s).touch now :: rest)
    else (mutateFirst rest n f now).map (fun l => s :: l)

/-! Error types from crates/lars-core/src/error.rs. Payloads that are
opaque foreign types (serde_json::Error, std::io::Error) are dropped. -/

inductive ValidationError where
  | invalidNameLength (n : Nat)
  | invalidNameCharacters
  | nullByteInInput
  | emptyInput
deriving DecidableEq, Repr

inductive ConfigError where
  | noConfigDirectory
  | parseError
  | notWritable (p : String)
  | ioErr
deriving DecidableEq, Repr

inductive LarsError where
  | serviceNotFound (n : String)
  | serviceAlreadyExists (n : String)
  | runnerNotAvailable (msg : String)
  | operationNotSupported (msg : String)
  | validation (e : ValidationError)
  | config (e : ConfigError)
  | ioErr
  | stopTimeout (n : String)
  | invalidPath
  | processFailed (msg : String)
deriving DecidableEq, Repr

/-! JSON values, standing for serde_json::Value. -/

inductive Json where
  | null
  | bool (b : Bool)
  | num (n : Nat)
  | str (s : String)
  | arr (xs : List Json)
  | obj (fields : List (String × Json))
deriving Repr

/-- Effectful map over a list in the Option monad, written out recursively
(the shape Rust's collect::<Option<Vec<_>>> and serde take). -/
def mapOption (f : α → Option β) : List α → Option (List β)
  | [] => some []
  | a :: l => do
    let b ← f a
    let bs ← mapOption f l
    some (b :: bs)

/-- Field access in a JSON object, as serde does by key. -/
def Json.getField : Json → String → Option Json
  | .obj fs, k => fs.lookup k
  | _, _ => none

/-- Serialization of RunnerType under serde rename_all lowercase. -/
def RunnerType.toJson : RunnerType → Json
  | .tmux => .str "tmux"
  | .screen => .str "screen"
  | .direct => .str "direct"

def RunnerType.fromJson : Json → Option RunnerType
  | .str "tmux" => some .tmux
  | .str "screen" => some .screen
  | .str "direct" => some .direct
  | _ => none

/-- Serialization of ShutdownBehavior under serde rename_all snake_case. -/
def ShutdownBehavior.toJson : ShutdownBehavior → Json
  | .stopAll => .str "stop_all"
  | .leaveRunning => .str "leave_running"

def ShutdownBehavior.fromJson : Json → Option ShutdownBehavior
  | .str "stop_all" => some .stopAll
  | .str "leave_running" => some .leaveRunning
  | _ => none

def envToJson (e : List (String × String)) : Json :=
  .obj (e.map (fun kv => (kv.1, Json.str kv.2)))

def envFromJson : Json → Option (List (String × String))
  | .obj fs => mapOption (fun kv =>
      match kv.2 with
      | .str v => some (kv.1, v)
      | _ => none) fs
  | _ => none

/-- Serialization of Service per its serde derives: cwd is skipped when
None, env is skipped when empty, every other field is always written. -/
def Service.toJson (s : Service) : Json :=
  .obj ([("id", Json.str s.id), ("name", Json.str s.name), ("command", Json.str s.command)]
    ++ (match s.cwd with
        | some p => [("cwd", Json.str p)]
        | none => [])
    ++ (if s.env.isEmpty then [] else [("env", envToJson s.env)])
    ++ [("enabled", Json.bool s.enabled), ("autostart", Json.bool s.autostart),
        ("runner_type", s.runner_type.toJson),
        ("created_at", Json.num s.created_at), ("updated_at", Json.num s.updated_at)])

/-- Deserialization of Service per its serde derives: cwd defaults to None
(and accepts null), env defaults to empty, enabled defaults to true,
autostart and runner_type default to their Default impls; id, name,
command and the two timestamps are required. -/
def Service.fromJson (j : Json) : Option Service :=
  match j with
  | .obj fs => do
    let id ← match fs.lookup "id" with
      | some (.str v) => some v
      | _ => none
    let name ← match fs.lookup "name" with
      | some (.str v) => some v
      | _ => none
    let command ← match fs.lookup "command" with
      | some (.str v) => some v
      | _ => none
    let cwd ← match fs.lookup "cwd" with
      | none => some none
      | some .null => some none
      | some (.str p) => some (some p)
      | some _ => none
    let env ← match fs.lookup "env" with
      | none => some []
      | some v => envFromJson v
    let enabled ← match fs.lookup "enabled" with
      | none => some true
      | some (.bool b) => some b
      | some _ => none
    let autostart ← match fs.lookup "autostart" with
      | none => some false
      | some (.bool b) => some b
      | some _ => none
    let rt ← match fs.lookup "runner_type" with
      | none => some RunnerType.tmux
      | some v => RunnerType.fromJson v
    let ca ← match fs.lookup "created_at" with
      | some (.num v) => some v
      | _ => none
    let ua ← match fs.lookup "updated_at" with
      | some (.num v) => some v
      | _ => none
    some ⟨id, name, command, cwd, env, enabled, autostart, rt, ca, ua⟩
  | _ => none

/-- Serialization of AppSettings: all three fields always written. -/
def AppSettings.toJson (s : AppSettings) : Json :=
  .obj [("default_runner", s.default_runner.toJson),
        ("shutdown_behavior", s.shutdown_behavior.toJson),
        ("restart_timeout_secs", Json.num s.restart_timeout_secs)]

/-- Deserialization of AppSettings: every field carries a serde default
(tmux, stop_all, and default_restart_timeout = 10 respectively). -/
def AppSettings.fromJson (j : Json) : Option AppSettings :=
  match j with
  | .obj fs => do
    let dr ← match fs.lookup "default_runner" with
      | none => some RunnerType.tmux
      | some v => RunnerType.fromJson v
    let sb ← match fs.lookup "shutdown_behavior" with
      | none => some ShutdownBehavior.stopAll
      | some v => ShutdownBehavior.fromJson v
    let rt ← match fs.lookup "restart_timeout_secs" with
      | none => some DEFAULT_RESTART_TIMEOUT_SECS
      | some (.num n) => some n
      | some _ => none
    some ⟨dr, sb, rt⟩
  | _ => none

/-- Serialization of AppConfig: config_version, services, settings. -/
def AppConfig.toJson (c : AppConfig) : Json :=
  .obj [("config_version", Json.num c.config_version),
        ("services", Json.arr (c.services.map Service.toJson)),
        ("settings", c.settings.toJson)]

/-- Deserialization of AppConfig: config_version defaults to
CURRENT_CONFIG_VERSION, services to the empty list, settings to its
Default impl. -/
def AppConfig.fromJson (j : Json) : Option AppConfig :=
  match j with
  | .obj fs => do
    let v ← match fs.lookup "config_version" with
      | none => some CURRENT_CONFIG_VERSION
      | some (.num n) => some n
      | some _ => none
    let svcs ← match fs.lookup "services" with
      | none => some []
      | some (.arr xs) => mapOption Service.fromJson xs
      | some _ => none
    let st ← match fs.lookup "settings" with
      | none => some AppSettings.dflt
      | some v => AppSettings.fromJson v
    some ⟨v, svcs, st⟩
  | _ => none

theorem runnerType_roundtrip (r : RunnerType) : RunnerType.fromJson r.toJson = some r := by
  cases r <;> rfl

theorem shutdownBehavior_roundtrip (s : ShutdownBehavior) :
    ShutdownBehavior.fromJson s.toJson = some s := by
  cases s <;> rfl

theorem env_roundtrip (e : List (String × String)) : envFromJson (envToJson e) = some e := by
  induction e with
  | nil => rfl
  | cons kv rest ih =>
    simp only [envToJson, envFromJson, List.map_cons, mapOption] at *
    simp [ih]

theorem service_roundtrip (s : Service) : Service.fromJson s.toJson = some s := by
  obtain ⟨id, name, command, cwd, env, enabled, autostart, rt, ca, ua⟩ := s
  cases cwd <;> cases env <;>
    simp [Service.toJson, Service.fromJson, List.lookup, runnerType_roundtrip,
      env_roundtrip, List.isEmpty]

theorem services_roundtrip (l : List Service) :
    mapOption Service.fromJson (l.map Service.toJson) = some l := by
  induction l with
  | nil => rfl
  | cons s rest ih => simp [mapOption, service_roundtrip, ih]

theorem appSettings_roundtrip (s : AppSettings) : AppSettings.fromJson s.toJson = some s := by
  obtain ⟨dr, sb, rt⟩ := s
  simp [AppSettings.toJson, AppSettings.fromJson, List.lookup,
    runnerType_roundtrip, shutdownBehavior_roundtrip]

theorem appConfig_roundtrip (c : AppConfig) : AppConfig.fromJson c.toJson = some c := by
  obtain ⟨v, svcs, st⟩ := c
  simp [AppConfig.toJson, AppConfig.fromJson, List.lookup,
    services_roundtrip, appSettings_roundtrip]

/-! File-system model for crates/lars-core/src/config.rs. The store is a
map from paths to whole JSON documents; fs::write and fs::rename are the
two primitive mutations save performs on it. Directory creation by
ensure_directories does not touch these paths and is not modelled. -/

def FS : Type := String → Option Json

def config_dir : String := "lars"

def CONFIG_FILE_NAME : String := "config.json"

/-- ConfigManager::config_path: config_dir joined with CONFIG_FILE_NAME. -/
def config_path : String := config_dir ++ "/" ++ CONFIG_FILE_NAME

/-- The temporary path config_path.with_extension of json.tmp. -/
def temp_path : String := config_path ++ ".tmp"

/-- fs::write of a complete document to a path. -/
def fsWrite (fs : FS) (p : String) (c : Json) : FS :=
  fun q => if q = p then some c else fs q

/-- fs::rename: the destination takes the source's content and the source
ceases to exist. -/
def fsRename (fs : FS) (src dst : String) : FS :=
  fun q => if q = src then none else if q = dst then fs src else fs q

namespace ConfigManager

/-- ConfigManager::migrate: bump an older config_version to current. -/
def migrate (c : AppConfig) : AppConfig :=
  if c.config_version < CURRENT_CONFIG_VERSION then
    { c with config_version := CURRENT_CONFIG_VERSION }
  else c

/-- ConfigManager::load: a missing file yields the default config; existing
content is parsed (parse failure is a ConfigError) and then migrated. -/
def load (fs : FS) : Except LarsError AppConfig :=
  match fs config_path with
  | none => .ok AppConfig.dflt
  | some j =>
    match AppConfig.fromJson j with
    | none => .error (.config .parseError)
    | some cfg => .ok (migrate cfg)

/-- ConfigManager::save: serialize, write the whole document to the temp
path, then rename the temp path over the canonical path. -/
def save (fs : FS) (c : AppConfig) : FS :=
  fsRename (fsWrite fs temp_path c.toJson) temp_path config_path

/-- The successive file-system states save passes through, with an
arbitrary partially-written document interposed on the temp path between
the start of fs::write and its completion. -/
def saveStatesDuring (fs : FS) (c : AppConfig) (partialDoc : Json) : List FS :=
  [fs,
   fsWrite fs temp_path partialDoc,
   fsWrite fs temp_path c.toJson,
   fsRename (fsWrite fs temp_path c.toJson) temp_path config_path]

/-- ConfigManager::add_service: load, reject an existing name, else append
and save. The pair returns the resulting file system next to the result,
so that the no-mutation-on-failure part of the contract is expressible. -/
def add_service (fs : FS) (svc : Service) : FS × Except LarsError Unit :=
  match load fs with
  | .error e => (fs, .error e)
  | .ok cfg =>
    if cfg.service_name_exists svc.name then
      (fs, .error (.serviceAlreadyExists svc.name))
    else
      (save fs (cfg.add_service svc), .ok ())

/-- ConfigManager::remove_service: load, remove by name or fail with
ServiceNotFound, save, return the removed record. -/
def remove_service (fs : FS) (n : String) : FS × Except LarsError Service :=
  match load fs with
  | .error e => (fs, .error e)
  | .ok cfg =>
    match removeFirst cfg.services n with
    | none => (fs, .error (.serviceNotFound n))
    | some (svc, rest) => (save fs { cfg with services := rest }, .ok svc)

/-- ConfigManager::update_service: load, find by name or fail, apply the
mutator and touch the record, save. -/
def update_service (fs : FS) (n : String) (f : Service → Service) (now : Nat) :
    FS × Except LarsError Unit :=
  match load fs with
  | .error e => (fs, .error e)
  | .ok cfg =>
    match mutateFirst cfg.services n f now with
    | none => (fs, .error (.serviceNotFound n))
    | some l => (save fs { cfg with services := l }, .ok ())

end ConfigManager

/-- The registry invariant: no two records share a name. -/
def NamesUnique (c : AppConfig) : Prop :=
  (c.services.map Service.name).Nodup

instance (c : AppConfig) : Decidable (NamesUnique c) := by
  unfold NamesUnique
  infer_instance

theorem temp_ne_config : temp_path ≠ config_path := by decide

/-- What save leaves at the canonical path: the serialized config, with the
temp path gone. -/
theorem save_reads (fs : FS) (c : AppConfig) :
    ConfigManager.save fs c config_path = some c.toJson ∧
    ConfigManager.save fs c temp_path = none := by
  constructor <;>
    simp [ConfigManager.save, fsRename, fsWrite, config_path, temp_path,
      config_dir, CONFIG_FILE_NAME]

/-- Loading after saving parses the saved document back and migrates it. -/
theorem load_save (fs : FS) (c : AppConfig) :
    ConfigManager.load (ConfigManager.save fs c) = .ok (ConfigManager.migrate c) := by
  simp [ConfigManager.load, (save_reads fs c).1, appConfig_roundtrip]

theorem migrate_services (c : AppConfig) : (ConfigManager.migrate c).services = c.services := by
  unfold ConfigManager.migrate
  split <;> rfl

theorem add_service_dup (fs : FS) (cfg : AppConfig) (svc : Service)
    (h : ConfigManager.load fs = .ok cfg)
    (hex : cfg.service_name_exists svc.name = true) :
    ConfigManager.add_service fs svc = (fs, .error (.serviceAlreadyExists svc.name)) := by
  unfold ConfigManager.add_service
  simp [h, hex]

theorem add_service_fresh (fs : FS) (cfg : AppConfig) (svc : Service)
    (h : ConfigManager.load fs = .ok cfg)
    (hex : cfg.service_name_exists svc.name = false) :
    ConfigManager.add_service fs svc =
      (ConfigManager.save fs (cfg.add_service svc), .ok ()) := by
  unfold ConfigManager.add_service
  simp [h, hex]

theorem remove_service_none (fs : FS) (cfg : AppConfig) (n : String)
    (h : ConfigManager.load fs = .ok cfg)
    (hr : removeFirst cfg.services n = none) :
    ConfigManager.remove_service fs n = (fs, .error (.serviceNotFound n)) := by
  unfold ConfigManager.remove_service
  simp [h, hr]

theorem remove_service_some (fs : FS) (cfg : AppConfig) (n : String)
    (svc : Service) (rest : List Service)
    (h : ConfigManager.load fs = .ok cfg)
    (hr : removeFirst cfg.services n = some (svc, rest)) :
    ConfigManager.remove_service fs n =
      (ConfigManager.save fs { cfg with services := rest }, .ok svc) := by
  unfold ConfigManager.remove_service
  simp [h, hr]

theorem update_service_none (fs : FS) (cfg : AppConfig) (n : String)
    (f : Service → Service) (now : Nat)
    (h : ConfigManager.load fs = .ok cfg)
    (hm : mutateFirst cfg.services n f now = none) :
    ConfigManager.update_service fs n f now = (fs, .error (.serviceNotFound n)) := by
  unfold ConfigManager.update_service
  simp [h, hm]

theorem update_service_some (fs : FS) (cfg : AppConfig) (n : String)
    (f : Service → Service) (now : Nat) (l : List Service)
    (h : ConfigManager.load fs = .ok cfg)
    (hm : mutateFirst cfg.services n f now = some l) :
    ConfigManager.update_service fs n f now =
      (ConfigManager.save fs { cfg with services := l }, .ok ()) := by
  unfold ConfigManager.update_service
  simp [h, hm]

theorem removeFirst_eq (l : List Service) (n : String) (svc : Service) (rest : List Service)
    (h : removeFirst l n = some (svc, rest)) :
    ∃ pre post, l = pre ++ svc :: post ∧ rest = pre ++ post := by
  induction l generalizing svc rest with
  | nil => simp [removeFirst] at h
  | cons s tl ih =>
    unfold removeFirst at h
    by_cases hs : s.name = n
    · rw [if_pos hs] at h
      obtain ⟨rfl, rfl⟩ : s = svc ∧ tl = rest := by simpa using h
      exact ⟨[], tl, rfl, rfl⟩
    · rw [if_neg hs] at h
      cases hr : removeFirst tl n with
      | none => rw [hr] at h; simp at h
      | some p =>
        obtain ⟨svc', rest'⟩ := p
        rw [hr] at h
        simp at h
        obtain ⟨rfl, rfl⟩ := h
        obtain ⟨pre, post, hl, hr'⟩ := ih _ _ hr
        exact ⟨s :: pre, post, by simp [hl], by simp [hr']⟩

theorem mutateFirst_eq (l : List Service) (n : String) (f : Service → Service) (now : Nat)
    (l' : List Service) (h : mutateFirst l n f now = some l') :
    ∃ pre s post, l = pre ++ s :: post ∧ s.name = n ∧ l' = pre ++ ((f s).touch now) :: post := by
  induction l generalizing l' with
  | nil => simp [mutateFirst] at h
  | cons s tl ih =>
    unfold mutateFirst at h
    by_cases hs : s.name = n
    · rw [if_pos hs] at h
      obtain rfl : (f s).touch now :: tl = l' := by simpa using h
      exact ⟨[], s, tl, rfl, hs, rfl⟩
    · rw [if_neg hs] at h
      cases hr : mutateFirst tl n f now with
      | none => rw [hr] at h; simp at h
      | some l'' =>
        rw [hr] at h
        simp at h
        subst h
        obtain ⟨pre, sx, post, hl, hn, hl'⟩ := ih _ hr
        exact ⟨s :: pre, sx, post, by simp [hl], hn, by simp [hl']⟩

/-- C3 (amended). Name uniqueness is preserved by add_service and
remove_service unconditionally, and by update_service whenever the mutated
record's resulting name is unchanged or collides with no record of the
loaded registry. -/
theorem store_ops_preserve_name_uniqueness (fs : FS) (cfg : AppConfig)
    (hload : ConfigManager.load fs = .ok cfg) (huniq : NamesUnique cfg) :
    (∀ svc cfg', (ConfigManager.add_service fs svc).2 = .ok () →
      ConfigManager.load (ConfigManager.add_service fs svc).1 = .ok cfg' → NamesUnique cfg') ∧
    (∀ n r cfg', (ConfigManager.remove_service fs n).2 = .ok r →
      ConfigManager.load (ConfigManager.remove_service fs n).1 = .ok cfg' → NamesUnique cfg') ∧
    (∀ n f now cfg',
      (∀ s ∈ cfg.services, s.name = n →
        ((f s).touch now).name = n ∨ ∀ t ∈ cfg.services, t.name ≠ ((f s).touch now).name) →
      (ConfigManager.update_service fs n f now).2 = .ok () →
      ConfigManager.load (ConfigManager.update_service fs n f now).1 = .ok cfg' →
      NamesUnique cfg') := by
  refine ⟨?_, ?_, ?_⟩
  · intro svc cfg' hok hload'
    cases hex : cfg.service_name_exists svc.name with
    | true =>
      rw [add_service_dup fs cfg svc hload hex] at hok
      simp at hok
    | false =>
      rw [add_service_fresh fs cfg svc hload hex] at hload'
      rw [load_save] at hload'
      have hc : ConfigManager.migrate (cfg.add_service svc) = cfg' := by simpa using hload'
      subst hc
      unfold NamesUnique
      rw [migrate_services]
      unfold AppConfig.add_service
      simp only [List.map_append, List.map_cons, List.map_nil]
      refine List.Nodup.append huniq (List.nodup_singleton _) ?_
      intro a ha hb
      simp only [List.mem_singleton] at hb
      subst hb
      obtain ⟨t, ht, hteq⟩ := List.mem_map.mp ha
      simp only [AppConfig.service_name_exists, List.any_eq_false, decide_eq_true_eq] at hex
      exact hex t ht hteq
  · intro n r cfg' hok hload'
    cases hrm : removeFirst cfg.services n with
    | none =>
      rw [remove_service_none fs cfg n hload hrm] at hok
      simp at hok
    | some p =>
      obtain ⟨svc, rest⟩ := p
      rw [remove_service_some fs cfg n svc rest hload hrm] at hload'
      rw [load_save] at hload'
      have hc : ConfigManager.migrate { cfg with services := rest } = cfg' := by simpa using hload'
      subst hc
      unfold NamesUnique
      rw [migrate_services]
      obtain ⟨pre, post, hl, hrest⟩ := removeFirst_eq _ _ _ _ hrm
      subst hrest
      unfold NamesUnique at huniq
      rw [hl] at huniq
      simp only [List.map_append, List.map_cons] at huniq ⊢
      rw [List.nodup_middle] at huniq
      exact (List.nodup_cons.mp huniq).2
  · intro n f now cfg' hcond hok hload'
    cases hm : mutateFirst cfg.services n f now with
    | none =>
      rw [update_service_none fs cfg n f now hload hm] at hok
      simp at hok
    | some l =>
      rw [update_service_some fs cfg n f now l hload hm] at hload'
      rw [load_save] at hload'
      have hc : ConfigManager.migrate { cfg with services := l } = cfg' := by simpa using hload'
      subst hc
      unfold NamesUnique
      rw [migrate_services]
      obtain ⟨pre, s, post, hl, hn, hl'⟩ := mutateFirst_eq _ _ _ _ _ hm
      subst hl'
      have hs_mem : s ∈ cfg.services := by rw [hl]; simp
      unfold NamesUnique at huniq
      rw [hl] at huniq
      simp only [List.map_append, List.map_cons] at huniq ⊢
      rcases hcond s hs_mem hn with hsame | hfresh
      · rw [hsame, ← hn]
        exact huniq
      · rw [List.nodup_middle] at huniq ⊢
        rw [List.nodup_cons] at huniq ⊢
        refine ⟨?_, huniq.2⟩
        intro hmem
        rw [List.mem_append] at hmem
        rcases hmem with hp | hp <;>
          obtain ⟨t, ht, hteq⟩ := List.mem_map.mp hp
        · exact hfresh t (by rw [hl]; simp [ht]) hteq
        · exact hfresh t (by rw [hl]; simp [ht]) hteq

deriving instance DecidableEq for Except

/-! Concrete fixtures used by counterexamples and witnesses. -/

def fsEmpty : FS := fun _ => none

def svcA : Service :=
  ⟨"u-a", "a", "echo a", none, [], true, false, .tmux, 0, 0⟩

def svcB : Service :=
  ⟨"u-b", "b", "echo b", none, [], true, false, .tmux, 0, 0⟩

def svcA2 : Service :=
  ⟨"u-a2", "a", "echo again", none, [], true, false, .tmux, 7, 7⟩

def svcC : Service :=
  ⟨"u-c", "c", "echo c", none, [], true, false, .tmux, 0, 0⟩

def cfgAB : AppConfig := ⟨1, [svcA, svcB], AppSettings.dflt⟩

def cfgABC : AppConfig := ⟨1, [svcA, svcB, svcC], AppSettings.dflt⟩

def fsAB : FS := ConfigManager.save fsEmpty cfgAB

/-- A mutator a caller may legally pass to update_service: it renames the
record to b. -/
def renameToB : Service → Service := fun s => { s with name := "b" }

def cfgBB : AppConfig :=
  ⟨1, [⟨"u-a", "b", "echo a", none, [], true, false, .tmux, 0, 5⟩, svcB], AppSettings.dflt⟩

/-- C3 (counterexample). Starting from a registry with distinct names a
and b, a successful update_service of a with a mutator that renames it to
b persists a registry in which two records share the name b: uniqueness is
not preserved under an arbitrary mutator. -/
theorem update_service_breaks_uniqueness :
    NamesUnique cfgAB ∧
    (ConfigManager.update_service fsAB "a" renameToB 5).2 = .ok () ∧
    ConfigManager.load (ConfigManager.update_service fsAB "a" renameToB 5).1 = .ok cfgBB ∧
    ¬ NamesUnique cfgBB := by
  refine ⟨by decide, by decide, by decide, by decide⟩

theorem store_ops_preserve_name_uniqueness_applied : NamesUnique cfgABC :=
  (store_ops_preserve_name_uniqueness fsAB cfgAB (by decide) (by decide)).1 svcC cfgABC
    (by decide) (by decide)

/-- C4. add_service of a record whose name is already taken fails with
ServiceAlreadyExists and leaves the file system untouched; with a fresh
name it appends the record and saves. -/
theorem add_service_contract (fs : FS) (cfg : AppConfig) (svc : Service)
    (h : ConfigManager.load fs = .ok cfg) :
    (cfg.service_name_exists svc.name = true →
      ConfigManager.add_service fs svc = (fs, .error (.serviceAlreadyExists svc.name))) ∧
    (cfg.service_name_exists svc.name = false →
      ConfigManager.add_service fs svc =
        (ConfigManager.save fs (cfg.add_service svc), .ok ())) :=
  ⟨add_service_dup fs cfg svc h, add_service_fresh fs cfg svc h⟩

theorem add_service_contract_applied :
    ConfigManager.add_service fsAB svcA2 = (fsAB, .error (.serviceAlreadyExists "a")) :=
  (add_service_contract fsAB cfgAB svcA2 (by decide)).1 (by decide)

/-- C5. load returns the default registry (zero records, default settings,
current schema version) when the file is absent, and raises an older
schema version to the current one leaving every other field unchanged. -/
theorem load_default_and_migration :
    (∀ fs : FS, fs config_path = none → ConfigManager.load fs = .ok AppConfig.dflt) ∧
    AppConfig.dflt.services = [] ∧
    AppConfig.dflt.settings = AppSettings.dflt ∧
    AppConfig.dflt.config_version = CURRENT_CONFIG_VERSION ∧
    (∀ (fs : FS) (cfg : AppConfig), cfg.config_version < CURRENT_CONFIG_VERSION →
      fs config_path = some cfg.toJson →
      ConfigManager.load fs = .ok { cfg with config_version := CURRENT_CONFIG_VERSION }) := by
  refine ⟨?_, rfl, rfl, rfl, ?_⟩
  · intro fs h
    unfold ConfigManager.load
    rw [h]
  · intro fs cfg hv h
    unfold ConfigManager.load
    rw [h]
    simp only [appConfig_roundtrip]
    unfold ConfigManager.migrate
    rw [if_pos hv]

def cfgV0 : AppConfig := { AppConfig.dflt with config_version := 0 }

def fsV0 : FS := fun p => if p = config_path then some cfgV0.toJson else none

theorem load_default_and_migration_applied :
    ConfigManager.load fsEmpty = .ok AppConfig.dflt ∧
    ConfigManager.load fsV0 = .ok { cfgV0 with config_version := CURRENT_CONFIG_VERSION } :=
  ⟨load_default_and_migration.1 fsEmpty rfl,
   load_default_and_migration.2.2.2.2 fsV0 cfgV0 (by decide) (by simp [fsV0])⟩

/-- C6. save then load round-trips a registry at the current schema
version exactly, and the optional fields cwd and env are omitted from the
serialized record when empty yet restored by deserialization. -/
theorem save_load_roundtrip (fs : FS) (c : AppConfig)
    (h : c.config_version = CURRENT_CONFIG_VERSION) :
    ConfigManager.load (ConfigManager.save fs c) = .ok c ∧
    (∀ s : Service, s.cwd = none → s.toJson.getField "cwd" = none) ∧
    (∀ s : Service, s.env = [] → s.toJson.getField "env" = none) := by
  refine ⟨?_, ?_, ?_⟩
  · rw [load_save]
    unfold ConfigManager.migrate
    rw [h]
    simp
  · intro s hs
    cases henv : s.env with
    | nil => simp [Service.toJson, Json.getField, hs, henv, List.lookup]
    | cons kv tl => simp [Service.toJson, Json.getField, hs, henv, List.lookup]
  · intro s hs
    cases hcwd : s.cwd with
    | none => simp [Service.toJson, Json.getField, hs, hcwd, List.lookup]
    | some p => simp [Service.toJson, Json.getField, hs, hcwd, List.lookup]

theorem save_load_roundtrip_applied :
    ConfigManager.load (ConfigManager.save fsEmpty cfgAB) = .ok cfgAB :=
  (save_load_roundtrip fsEmpty cfgAB rfl).1

/-- C2. save touches the canonical path only through the final atomic
rename: in every intermediate state, including an arbitrary partial write
of the temp file, the canonical path holds either the previous document or
the complete new one; after save the canonical path holds the new document
and the temp path does not linger. -/
theorem save_atomic_rename (fs : FS) (c : AppConfig) (partialDoc : Json) :
    (∀ s ∈ ConfigManager.saveStatesDuring fs c partialDoc,
      s config_path = fs config_path ∨ s config_path = some c.toJson) ∧
    (ConfigManager.saveStatesDuring fs c partialDoc).getLast? = some (ConfigManager.save fs c) ∧
    ConfigManager.save fs c config_path = some c.toJson ∧
    ConfigManager.save fs c temp_path = none := by
  refine ⟨?_, rfl, (save_reads fs c).1, (save_reads fs c).2⟩
  intro s hs
  simp only [ConfigManager.saveStatesDuring, List.mem_cons, List.not_mem_nil, or_false] at hs
  rcases hs with rfl | rfl | rfl | rfl
  · left; rfl
  · left
    simp [fsWrite, config_path, temp_path, config_dir, CONFIG_FILE_NAME]
  · left
    simp [fsWrite, config_path, temp_path, config_dir, CONFIG_FILE_NAME]
  · right
    exact (save_reads fs c).1

theorem save_atomic_rename_applied :
    ConfigManager.save fsEmpty AppConfig.dflt config_path = some AppConfig.dflt.toJson :=
  (save_atomic_rename fsEmpty AppConfig.dflt Json.null).2.2.1

def cfgZeroTimeout : AppConfig := ⟨1, [], ⟨.tmux, .stopAll, 0⟩⟩

def fsZero : FS := fun p => if p = config_path then some cfgZeroTimeout.toJson else none

/-- C9 (counterexample). The core itself accepts a persisted settings
value with restart_timeout_secs = 0: load parses it back unvalidated, so
the positivity of the restart timeout is not an invariant the core
enforces. -/
theorem load_admits_zero_restart_timeout :
    ConfigManager.load fsZero = .ok cfgZeroTimeout ∧
    cfgZeroTimeout.settings.restart_timeout_secs = 0 := by
  exact ⟨by decide, rfl⟩

/-- C9 (amended). The default settings carry the positive restart timeout
of 10 seconds, a missing file loads to those defaults, and a settings
object missing the field deserializes to the default; positivity of a
stored value is enforced only by the CLI, not by the core. -/
theorem restart_timeout_default_positive :
    0 < AppConfig.dflt.settings.restart_timeout_secs ∧
    AppConfig.dflt.settings.restart_timeout_secs = DEFAULT_RESTART_TIMEOUT_SECS ∧
    (∀ fs : FS, fs config_path = none → ConfigManager.load fs = .ok AppConfig.dflt) ∧
    AppSettings.fromJson (Json.obj []) = some AppSettings.dflt := by
  refine ⟨by decide, rfl, ?_, rfl⟩
  intro fs h
  unfold ConfigManager.load
  rw [h]

theorem restart_timeout_default_positive_applied :
    ConfigManager.load fsEmpty = .ok AppConfig.dflt :=
  restart_timeout_default_positive.2.2.1 fsEmpty rfl

/-! Runner models from crates/lars-core/src/runner.rs. The external tmux
backend is modelled by oracles. For the default restart algorithm the
is_running polls inside the wait loop form a Boolean sequence indexed by
the number of completed 100 ms sleeps, so elapsed time at poll k is
100 * k milliseconds and the Instant-based check elapsed > timeout_secs
becomes 100 * k > 1000 * timeout_secs. Backend I/O errors propagated by
the question-mark operator are outside this model. -/

inductive RunnerEvent where
  | stopEv
  | startEv
deriving DecidableEq, Repr

/-- The wait loop of Runner::restart: while is_running, fail once elapsed
exceeds the timeout, else sleep 100 ms and poll again. Returns the poll
index that observed not-running, or none for the StopTimeout exit. -/
def stopWait (isRun : Nat → Bool) (T : Nat) (k : Nat) : Option Nat :=
  if isRun k = false then some k
  else if 100 * k > 1000 * T then none
  else stopWait isRun T (k + 1)
termination_by 10 * T + 1 - k
decreasing_by omega

/-- Runner::restart default implementation: if is_running, stop and run
the wait loop, then start; the initial is_running answer is r0. -/
def Runner.restart (svc : Service) (r0 : Bool) (isRun : Nat → Bool) (T : Nat) :
    List RunnerEvent × Except LarsError Unit :=
  if r0 then
    match stopWait isRun T 0 with
    | none => ([.stopEv], .error (.stopTimeout svc.name))
    | some _ => ([.stopEv, .startEv], .ok ())
  else ([.startEv], .ok ())

theorem stopWait_spec (isRun : Nat → Bool) (T : Nat) :
    ∀ n k, k ≤ 10 * T + 1 → 10 * T + 1 - k ≤ n →
    (∃ m, k ≤ m ∧ m ≤ 10 * T + 1 ∧ isRun m = false ∧
      (∀ j, k ≤ j → j < m → isRun j = true) ∧ stopWait isRun T k = some m) ∨
    ((∀ j, k ≤ j → j ≤ 10 * T + 1 → isRun j = true) ∧ stopWait isRun T k = none) := by
  intro n
  induction n with
  | zero =>
    intro k hk hn
    have hk' : k = 10 * T + 1 := by omega
    by_cases h1 : isRun k = false
    · left
      exact ⟨k, Nat.le_refl k, hk, h1, fun j hj1 hj2 => absurd (lt_of_le_of_lt hj1 hj2) (lt_irrefl k),
        by rw [stopWait, if_pos h1]⟩
    · have h1' : isRun k = true := by revert h1; cases isRun k <;> simp
      right
      refine ⟨?_, ?_⟩
      · intro j hj1 hj2
        have : j = k := by omega
        rw [this]; exact h1'
      · rw [stopWait, if_neg h1, if_pos (by omega)]
  | succ n ih =>
    intro k hk hn
    by_cases h1 : isRun k = false
    · left
      exact ⟨k, Nat.le_refl k, hk, h1, fun j hj1 hj2 => absurd (lt_of_le_of_lt hj1 hj2) (lt_irrefl k),
        by rw [stopWait, if_pos h1]⟩
    · have h1' : isRun k = true := by revert h1; cases isRun k <;> simp
      by_cases h2 : 100 * k > 1000 * T
      · right
        refine ⟨?_, by rw [stopWait, if_neg h1, if_pos h2]⟩
        intro j hj1 hj2
        have : j = k := by omega
        rw [this]; exact h1'
      · have hk1 : k + 1 ≤ 10 * T + 1 := by omega
        have hn1 : 10 * T + 1 - (k + 1) ≤ n := by omega
        rcases ih (k + 1) hk1 hn1 with ⟨m, hm1, hm2, hm3, hm4, hm5⟩ | ⟨hall, hnone⟩
        · left
          refine ⟨m, by omega, hm2, hm3, ?_, by rw [stopWait, if_neg h1, if_neg h2]; exact hm5⟩
          intro j hj1 hj2
          rcases Nat.eq_or_lt_of_le hj1 with rfl | hlt
          · exact h1'
          · exact hm4 j (by omega) hj2
        · right
          refine ⟨?_, by rw [stopWait, if_neg h1, if_neg h2]; exact hnone⟩
          intro j hj1 hj2
          rcases Nat.eq_or_lt_of_le hj1 with rfl | hlt
          · exact h1'
          · exact hall j (by omega) hj2

/-- C1. The default restart: when the initial is_running check is false it
proceeds directly to start; when it is true it stops and polls is_running
every 100 ms, and either observes not-running within the timeout (plus at
most one 100 ms interval, the bound 10 T + 1 being exact for the code's
strict elapsed > timeout check) and then starts, or every poll up to that
bound still reports running and restart fails with StopTimeout without
ever starting. -/
theorem restart_default_algorithm (svc : Service) (r0 : Bool) (isRun : Nat → Bool) (T : Nat) :
    (r0 = false → Runner.restart svc r0 isRun T = ([.startEv], .ok ())) ∧
    (r0 = true →
      (∃ m, m ≤ 10 * T + 1 ∧ isRun m = false ∧ (∀ j < m, isRun j = true) ∧
        Runner.restart svc r0 isRun T = ([.stopEv, .startEv], .ok ())) ∨
      ((∀ j ≤ 10 * T + 1, isRun j = true) ∧
        Runner.restart svc r0 isRun T = ([.stopEv], .error (.stopTimeout svc.name)))) := by
  constructor
  · intro h
    subst h
    rfl
  · intro h
    subst h
    rcases stopWait_spec isRun T (10 * T + 1) 0 (by omega) (by omega) with
      ⟨m, _, hm2, hm3, hm4, hm5⟩ | ⟨hall, hnone⟩
    · left
      exact ⟨m, hm2, hm3, fun j hj => hm4 j (Nat.zero_le _) hj,
        by simp [Runner.restart, hm5]⟩
    · right
      exact ⟨fun j hj => hall j (Nat.zero_le _) hj, by simp [Runner.restart, hnone]⟩

theorem restart_default_algorithm_applied :
    Runner.restart svcA false (fun _ => false) 0 = ([.startEv], .ok ()) :=
  (restart_default_algorithm svcA false (fun _ => false) 0).1 rfl

/-- TmuxRunner::session_name: a fixed prefix concatenated with the id. -/
def session_name (svc : Service) : String := "lar_" ++ svc.id

/-- The tmux has-session query over the backend's session list. -/
def hasSession (sessions : List String) (n : String) : Bool := sessions.contains n

/-- Model of the external tmux kill-session command: killing an existing
session removes it and reports success, unless the backend faults (works
= false), in which case the session survives and the status is failure;
killing a missing session reports failure and changes nothing. -/
def killSession (sessions : List String) (n : String) (works : Bool) : Bool × List String :=
  if sessions.contains n then
    if works then (true, sessions.filter (fun s => s ≠ n))
    else (false, sessions)
  else (false, sessions)

/-- TmuxRunner::stop: issue kill-session; if its status is a failure and
is_running still reports the session, fail with ProcessFailed, else Ok. -/
def TmuxRunner.stop (svc : Service) (sessions : List String) (works : Bool) :
    Except LarsError Unit × List String :=
  let st := killSession sessions (session_name svc) works
  if !st.1 && hasSession st.2 (session_name svc) then
    (.error (.processFailed "tmux kill-session failed"), st.2)
  else (.ok (), st.2)

/-- C8. stop is idempotent: on a service that is not running the backend
kill reports failure for the missing session yet stop succeeds and
is_running stays false afterwards; and stop returns ProcessFailed only
when the kill status is a failure and the service is still observed
running afterwards. -/
theorem stop_idempotent_spec (svc : Service) (sessions : List String) (works : Bool) :
    (hasSession sessions (session_name svc) = false →
      (TmuxRunner.stop svc sessions works).1 = .ok () ∧
      hasSession (TmuxRunner.stop svc sessions works).2 (session_name svc) = false ∧
      (killSession sessions (session_name svc) works).1 = false) ∧
    (∀ msg, (TmuxRunner.stop svc sessions works).1 = .error (.processFailed msg) →
      (killSession sessions (session_name svc) works).1 = false ∧
      hasSession (TmuxRunner.stop svc sessions works).2 (session_name svc) = true) := by
  unfold TmuxRunner.stop killSession hasSession
  by_cases hc : session_name svc ∈ sessions <;> cases works <;>
    simp [hc]

theorem stop_idempotent_spec_applied :
    (TmuxRunner.stop svcA [] true).1 = .ok () ∧
    hasSession (TmuxRunner.stop svcA [] true).2 (session_name svcA) = false ∧
    (killSession [] (session_name svcA) true).1 = false :=
  (stop_idempotent_spec svcA [] true).1 rfl

/-! Validation from crates/lars-core/src/validation.rs. Rust &str is
modelled as List Char; str::len is the UTF-8 byte length, the sum of the
per-character UTF-8 sizes. char::is_alphanumeric is the Unicode Alphabetic
or Numeric property; the model is exact on the Basic Latin and Latin-1
blocks, which cover every string appearing in this development, and
classifies code points above U+00FF as non-alphanumeric. -/

def rustIsAlphanumeric (c : Char) : Bool :=
  c.isAlphanum ||
  (c.toNat == 0xAA || c.toNat == 0xB5 || c.toNat == 0xBA) ||
  (0xC0 ≤ c.toNat && c.toNat ≤ 0xD6) ||
  (0xD8 ≤ c.toNat && c.toNat ≤ 0xF6) ||
  (0xF8 ≤ c.toNat && c.toNat ≤ 0xFF) ||
  (c.toNat == 0xB2 || c.toNat == 0xB3 || c.toNat == 0xB9) ||
  (0xBC ≤ c.toNat && c.toNat ≤ 0xBE)

/-- The character class of validate_service_name and of the sanitize step
of generate_service_name: alphanumeric, underscore or hyphen. -/
def isValidNameChar (c : Char) : Bool :=
  rustIsAlphanumeric c || c == '_' || c == '-'

/-- Rust str::len on the model: total UTF-8 byte length. -/
def byteLen (l : List Char) : Nat := (l.map Char.utf8Size).sum

def MAX_NAME_LENGTH : Nat := 64

/-- validate_service_name: reject the empty name with InvalidNameLength 0,
a name of more than MAX_NAME_LENGTH bytes with InvalidNameLength carrying
the byte length, and a name with a character outside the class with
InvalidNameCharacters. -/
def validate_service_name (name : List Char) : Except ValidationError Unit :=
  if name.isEmpty then .error (.invalidNameLength 0)
  else if byteLen name > MAX_NAME_LENGTH then .error (.invalidNameLength (byteLen name))
  else if !(name.all isValidNameChar) then .error .invalidNameCharacters
  else .ok ()

theorem one_le_byteLen (name : List Char) (h : name ≠ []) : 1 ≤ byteLen name := by
  cases name with
  | nil => exact absurd rfl h
  | cons c r =>
    unfold byteLen
    simp only [List.map_cons, List.sum_cons]
    have := Char.utf8Size_pos c
    omega

/-- C7 (amended). validate_service_name accepts exactly the names whose
UTF-8 byte length is between 1 and 64 with every character alphanumeric,
underscore or hyphen; the empty name and names over 64 bytes are rejected
with InvalidNameLength carrying the byte length, other names holding a
forbidden character with InvalidNameCharacters; the spec's examples behave
as stated (they are ASCII, where bytes and characters coincide). -/
theorem validate_service_name_spec :
    (∀ name : List Char,
      (validate_service_name name = .ok () ↔
        1 ≤ byteLen name ∧ byteLen name ≤ 64 ∧ name.all isValidNameChar = true) ∧
      (name = [] → validate_service_name name = .error (.invalidNameLength 0)) ∧
      (byteLen name > 64 → validate_service_name name = .error (.invalidNameLength (byteLen name))) ∧
      (name ≠ [] → byteLen name ≤ 64 → name.all isValidNameChar = false →
        validate_service_name name = .error .invalidNameCharacters)) ∧
    validate_service_name "ok-name_1".data = .ok () ∧
    validate_service_name "bad;name".data = .error .invalidNameCharacters ∧
    validate_service_name "bad name".data = .error .invalidNameCharacters ∧
    validate_service_name "".data = .error (.invalidNameLength 0) ∧
    validate_service_name (List.replicate 65 'a') = .error (.invalidNameLength 65) := by
  refine ⟨?_, by decide, by decide, by decide, by decide, by decide⟩
  intro name
  refine ⟨?_, ?_, ?_, ?_⟩
  · unfold validate_service_name
    by_cases h1 : name.isEmpty
    · rw [if_pos h1]
      have : name = [] := List.isEmpty_iff.mp h1
      subst this
      simp [byteLen]
    · rw [if_neg h1]
      have hne : name ≠ [] := by
        intro hc
        subst hc
        exact h1 rfl
      by_cases h2 : byteLen name > MAX_NAME_LENGTH
      · rw [if_pos h2]
        unfold MAX_NAME_LENGTH at h2
        constructor
        · intro hc
          exact absurd hc (by simp)
        · intro ⟨_, hb, _⟩
          omega
      · rw [if_neg h2]
        unfold MAX_NAME_LENGTH at h2
        by_cases h3 : name.all isValidNameChar
        · rw [if_neg (by simp [h3])]
          simp [h3, one_le_byteLen name hne]
          omega
        · rw [if_pos (by simp [h3])]
          constructor
          · intro hc
            exact absurd hc (by simp)
          · intro ⟨_, _, ha⟩
            exact absurd ha h3
  · intro h
    subst h
    rfl
  · intro h
    unfold validate_service_name
    have hne : ¬ name.isEmpty := by
      intro hc
      have : name = [] := List.isEmpty_iff.mp hc
      subst this
      simp [byteLen] at h
    rw [if_neg hne, if_pos (by unfold MAX_NAME_LENGTH; omega)]
  · intro hne hle hall
    unfold validate_service_name
    rw [if_neg (by simp [List.isEmpty_iff, hne]),
      if_neg (by unfold MAX_NAME_LENGTH; omega),
      if_pos (by simp [hall])]

theorem validate_service_name_spec_applied :
    validate_service_name (List.replicate 65 'a') =
      .error (.invalidNameLength (byteLen (List.replicate 65 'a'))) :=
  (validate_service_name_spec.1 (List.replicate 65 'a')).2.2.1 (by decide)

def eAcute : Char := 'é'

/-- C7 (counterexample). A name of 33 copies of the alphanumeric character
é has 33 characters, every one in the allowed class, yet
validate_service_name rejects it with InvalidNameLength 66: the length
limit counts UTF-8 bytes (é is two bytes), not characters as the claim
states. -/
theorem validate_name_counts_bytes_not_chars :
    (List.replicate 33 eAcute).length = 33 ∧
    (List.replicate 33 eAcute).all isValidNameChar = true ∧
    validate_service_name (List.replicate 33 eAcute) = .error (.invalidNameLength 66) := by
  exact ⟨by decide, by decide, by decide⟩

/-- Rust char::is_whitespace, the Unicode White_Space property; exact on
the Basic Latin and Latin-1 blocks. -/
def rustIsWhitespace (c : Char) : Bool :=
  c == ' ' || (0x09 ≤ c.toNat && c.toNat ≤ 0x0D) || c.toNat == 0x85 || c.toNat == 0xA0

def splitWsAux : List Char → List Char → List (List Char)
  | [], acc => if acc.isEmpty then [] else [acc.reverse]
  | c :: cs, acc =>
    if rustIsWhitespace c then
      if acc.isEmpty then splitWsAux cs []
      else acc.reverse :: splitWsAux cs []
    else splitWsAux cs (c :: acc)

/-- str::split_whitespace: maximal runs of non-whitespace characters. -/
def splitWs (l : List Char) : List (List Char) := splitWsAux l []

/-- The filter predicate of generate_service_name: a word that contains an
equals sign whose left side is a well-formed environment variable name
(leading ASCII letter or underscore, then ASCII alphanumerics or
underscores) looks like VAR=value and is skipped. -/
def isEnvAssign (w : List Char) : Bool :=
  if w.contains '=' then
    let before := w.takeWhile (fun c => !(c == '='))
    !before.isEmpty &&
    (match before with
     | c :: _ => c.isAlpha || c == '_'
     | [] => false) &&
    before.all (fun c => c.isAlphanum || c == '_')
  else false

/-- str::split on a separator character: never empty, keeps empty pieces. -/
def splitOnChar (sep : Char) : List Char → List (List Char)
  | [] => [[]]
  | c :: cs =>
    let r := splitOnChar sep cs
    if c == sep then [] :: r
    else
      match r with
      | h :: t => (c :: h) :: t
      | [] => [[c]]

/-- str::starts_with on a hyphen, used to skip flags after npx. -/
def startsWithDash : List Char → Bool
  | c :: _ => c == '-'
  | [] => false

/-- words[0].split of slash .last().unwrap_or of service: the binary name
extracted from a path. -/
def executableOf (words : List (List Char)) : List Char :=
  (splitOnChar '/' (words.headD [])).getLastD "service".data

/-- For npx, bunx and pnpx with further words, the first non-flag argument
(falling back to the executable); otherwise the executable itself. -/
def nameSourceOf (words : List (List Char)) : List Char :=
  if (executableOf words == "npx".data || executableOf words == "bunx".data
      || executableOf words == "pnpx".data) && words.length > 1 then
    ((words.drop 1).find? (fun w => !startsWithDash w)).getD (executableOf words)
  else executableOf words

/-- Version-suffix stripping: the part before the first at sign; when that
is empty (scoped package), the part after the last slash before its first
at sign. -/
def packageNameOf (words : List (List Char)) : List Char :=
  let ns := nameSourceOf words
  if ((splitOnChar '@' ns).headD ns).isEmpty then
    match (splitOnChar '/' ns).getLast? with
    | none => ns
    | some s =>
      match (splitOnChar '@' s).head? with
      | none => ns
      | some x => x
  else (splitOnChar '@' ns).headD ns

/-- The final sanitize step: keep only valid name characters, truncate to
MAX_NAME_LENGTH characters, fall back to service when nothing is left. -/
def sanitizeName (package_name : List Char) : List Char :=
  if ((package_name.filter isValidNameChar).take MAX_NAME_LENGTH).isEmpty then "service".data
  else (package_name.filter isValidNameChar).take MAX_NAME_LENGTH

/-- generate_service_name: split into words, drop VAR=value prefixes, fall
back to service when nothing remains, else derive the package name and
sanitize it. -/
def generate_service_name (command : List Char) : List Char :=
  if ((splitWs command).filter (fun w => !isEnvAssign w)).isEmpty then "service".data
  else sanitizeName (packageNameOf ((splitWs command).filter (fun w => !isEnvAssign w)))

theorem sanitizeName_props (pkg : List Char) :
    sanitizeName pkg ≠ [] ∧ (sanitizeName pkg).length ≤ 64 ∧
    (sanitizeName pkg).all isValidNameChar = true := by
  unfold sanitizeName
  by_cases h : ((pkg.filter isValidNameChar).take MAX_NAME_LENGTH).isEmpty
  · rw [if_pos h]
    exact ⟨by decide, by decide, by decide⟩
  · rw [if_neg h]
    refine ⟨?_, ?_, ?_⟩
    · intro hc
      rw [hc] at h
      exact h rfl
    · rw [List.length_take]
      exact min_le_left _ _
    · rw [List.all_eq_true]
      intro x hx
      have hx' : x ∈ pkg.filter isValidNameChar := List.take_subset _ _ hx
      simpa using (List.mem_filter.mp hx').2

/-- C10 (amended). Every generated name is nonempty (falling back to
service), at most 64 characters, and made only of allowed characters; it
passes validate_service_name whenever its UTF-8 byte length is at most 64,
which holds in particular for every ASCII result, but not always: the
truncation counts characters while validation counts bytes. -/
theorem generate_service_name_valid :
    (∀ command : List Char,
      generate_service_name command ≠ [] ∧
      (generate_service_name command).length ≤ 64 ∧
      (generate_service_name command).all isValidNameChar = true ∧
      (byteLen (generate_service_name command) ≤ 64 →
        validate_service_name (generate_service_name command) = .ok ())) ∧
    generate_service_name [] = "service".data := by
  refine ⟨?_, by decide⟩
  intro command
  have base : generate_service_name command ≠ [] ∧
      (generate_service_name command).length ≤ 64 ∧
      (generate_service_name command).all isValidNameChar = true := by
    unfold generate_service_name
    by_cases hw : ((splitWs command).filter (fun w => !isEnvAssign w)).isEmpty
    · rw [if_pos hw]
      exact ⟨by decide, by decide, by decide⟩
    · rw [if_neg hw]
      exact sanitizeName_props _
  refine ⟨base.1, base.2.1, base.2.2, ?_⟩
  intro hbl
  unfold validate_service_name
  rw [if_neg (by simp [List.isEmpty_iff, base.1]),
    if_neg (by unfold MAX_NAME_LENGTH; omega),
    if_neg (by simp [base.2.2])]

theorem generate_service_name_valid_applied :
    validate_service_name (generate_service_name "PORT=3000 npx vibe-kanban@latest".data) =
      .ok () :=
  (generate_service_name_valid.1 "PORT=3000 npx vibe-kanban@latest".data).2.2.2 (by decide)

/-- C10 (counterexample). A command of 64 copies of the alphanumeric
character é generates a name of 64 characters but 128 UTF-8 bytes, which
validate_service_name rejects with InvalidNameLength 128: the generated
name does not always satisfy validation. -/
theorem generate_name_can_fail_validation :
    generate_service_name (List.replicate 64 eAcute) = List.replicate 64 eAcute ∧
    validate_service_name (generate_service_name (List.replicate 64 eAcute)) =
      .error (.invalidNameLength 128) := by
  exact ⟨by decide, by decide⟩
